import Mathlib

/-
Shallow embedding of the streaming decimation / caching / viewport-query
engine of the TDMS viewer (sources under "TDMS viewer/tdms viewer breakup
try1/src" and "TDMS viewer/tdms_viewer.py").

Numeric samples are modelled as rationals (exact arithmetic standing in for
the float64 values the code manipulates); the scipy anti-aliasing filter
step of signal.decimate is abstracted as a parameter that either returns a
filtered-and-strided array or fails (models the ValueError raised for
inputs shorter than the filtfilt pad length), exactly the two outcomes the
try/except in SignalProcessor.decimate_data distinguishes.
-/

/-- Python slice xs[::q] for q >= 1: the elements at indices 0, q, 2q, ...;
there are ceil(len(xs)/q) of them. -/
def strideEvery (xs : List ℚ) (q : Nat) : List ℚ :=
  (List.range ((xs.length + q - 1) / q)).map (fun i => xs.getD (i * q) 0)

/-- Model of the outcome of scipy.signal.decimate(y, factor, zero_phase=True)
failing (it raises for inputs shorter than the filtfilt pad length); the
caller's except-branch then takes over. -/
def sdFail : List ℚ → Nat → Option (List ℚ) :=
  fun _ _ => none

/-- Model of scipy.signal.decimate(y, q, zero_phase=True) succeeding: a
length-preserving zero-phase filter applied to y, then strided by q. -/
def sdFilter (filt : List ℚ → List ℚ) (y : List ℚ) (q : Nat) : Option (List ℚ) :=
  some (strideEvery (filt y) q)

/-- SignalProcessor.decimate_data (signal_processor.py lines 14-43).
`sd` models scipy.signal.decimate: some dy on success, none when the filter
step raises (the except-branch falls back to plain striding). -/
def decimate_data (sd : List ℚ → Nat → Option (List ℚ))
    (x_data y_data : List ℚ) (target_points : Nat) : List ℚ × List ℚ :=
  if x_data.length ≤ target_points then
    (x_data, y_data)
  else
    let factor := max 1 (x_data.length / target_points)
    match sd y_data factor with
    | some decimated_y =>
        let decimated_x := strideEvery x_data factor
        let min_len := min decimated_x.length decimated_y.length
        (decimated_x.take min_len, decimated_y.take min_len)
    | none =>
        (strideEvery x_data factor, strideEvery y_data factor)

/-- np.searchsorted(a, v) with side "left" on a sorted array: the first
index whose element is >= v, or len(a) when every element is < v. -/
def searchsorted (a : List ℚ) (v : ℚ) : Nat :=
  match a.findIdx? (fun e => decide (v ≤ e)) with
  | some i => i
  | none => a.length

/-- find_nearest_index (utils/helpers.py lines 71-88): searchsorted, then
pick whichever neighbour is closer. -/
def find_nearest_index (array : List ℚ) (value : ℚ) : Nat :=
  let idx := searchsorted array value
  if idx = 0 then 0
  else if idx = array.length then array.length - 1
  else if |value - array.getD (idx - 1) 0| < |value - array.getD idx 0| then idx - 1
  else idx

/-- SignalProcessor.get_y_at_x (signal_processor.py lines 80-105). -/
def get_y_at_x (x_value : ℚ) (x_data y_data : List ℚ) : Option ℚ :=
  if x_data.length = 0 ∨ x_value < x_data.getD 0 0 ∨
      x_data.getD (x_data.length - 1) 0 < x_value then
    none
  else
    let idx := find_nearest_index x_data x_value
    if 0 < idx ∧ idx < x_data.length then
      let x0 := x_data.getD (idx - 1) 0
      let x1 := x_data.getD idx 0
      let y0 := y_data.getD (idx - 1) 0
      let y1 := y_data.getD idx 0
      some (y0 + (y1 - y0) * (x_value - x0) / (x1 - x0))
    else
      some (y_data.getD idx 0)

/-- The linear interpolant between the two samples that bracket x; this is
what the spec says get_y_at_x computes between "the two bracketing
samples", stated here for comparison with the source behaviour. -/
def bracketInterp (x0 x1 y0 y1 x_value : ℚ) : ℚ :=
  y0 + (y1 - y0) * (x_value - x0) / (x1 - x0)

/-- SignalProcessor.get_visible_data (signal_processor.py lines 45-78):
locate the view range with find_nearest_index, slice half-open, decimate
only when the slice exceeds the point budget. -/
def get_visible_data (sd : List ℚ → Nat → Option (List ℚ))
    (x_data y_data : List ℚ) (x_min x_max : ℚ)
    (target_points : Nat) : List ℚ × List ℚ :=
  let start_idx := find_nearest_index x_data x_min
  let end_idx := find_nearest_index x_data x_max
  if end_idx ≤ start_idx then ([], [])
  else
    let visible_x := (x_data.drop start_idx).take (end_idx - start_idx)
    let visible_y := (y_data.drop start_idx).take (end_idx - start_idx)
    if target_points < visible_x.length then
      decimate_data sd visible_x visible_y target_points
    else
      (visible_x, visible_y)

theorem strideEvery_length (xs : List ℚ) (q : Nat) :
    (strideEvery xs q).length = (xs.length + q - 1) / q := by
  simp [strideEvery]

theorem strideEvery_one (xs : List ℚ) : strideEvery xs 1 = xs := by
  apply List.ext_getElem
  · simp [strideEvery]
  · intro i h1 h2
    simp only [strideEvery, List.getElem_map, List.getElem_range, mul_one]
    rw [List.getD_eq_getElem]

/-- Arithmetic core of the corrected point-budget bound: with f = L / n
(floor) and n < L, ceil(L / f) is at most 2n - 1. -/
theorem ceil_div_floor_bound (L n : Nat) (hn : 0 < n) (hL : n < L) :
    (L + L / n - 1) / (L / n) ≤ 2 * n - 1 := by
  set f := L / n with hf
  have hf1 : 1 ≤ f := (Nat.one_le_div_iff hn).2 (le_of_lt hL)
  have hmod : n * f + L % n = L := by
    rw [hf]; exact Nat.div_add_mod L n
  have hr : L % n < n := Nat.mod_lt _ hn
  have hLle : L ≤ n * f + n - 1 := by omega
  have hlt : L + f - 1 < 2 * n * f := by
    obtain ⟨a, rfl⟩ : ∃ a, n = a + 1 := ⟨n - 1, by omega⟩
    obtain ⟨b, hb⟩ : ∃ b, f = b + 1 := ⟨f - 1, by omega⟩
    rw [hb] at hLle ⊢
    have hexp : (a + 1) * (b + 1) = a * b + a + b + 1 := by ring
    have hexp2 : 2 * (a + 1) * (b + 1) = 2 * (a * b) + 2 * a + 2 * b + 2 := by ring
    omega
  have := (Nat.div_lt_iff_lt_mul (by omega : 0 < f)).2
    (by calc L + f - 1 < 2 * n * f := hlt
          _ = 2 * n * f := rfl)
  omega

/-- Signal cache and its operations (core/data_manager.py). The ordered
mapping is an association list in Python-dict insertion order: assigning an
existing key replaces its value in place, a new key is appended at the end,
and popitem(last=False) removes the head. -/
def assocSet {α β : Type} [DecidableEq α] : List (α × β) → α → β → List (α × β)
  | [], k, v => [(k, v)]
  | (k', v') :: rest, k, v =>
      if k' = k then (k, v) :: rest else (k', v') :: assocSet rest k v

/-- Entries of DataManager.signal_cache: key, (x_data, y_data). -/
abbrev CacheMap := List (String × (List ℚ × List ℚ))

/-- DataManager.cache_signal (data_manager.py lines 37-57): pop the oldest
inserted entry when the cache is full, then store the new entry. -/
def cache_signal (max_cache_size : Nat) (m : CacheMap) (signal_key : String)
    (x_data y_data : List ℚ) : CacheMap :=
  let m' := if max_cache_size ≤ m.length then m.drop 1 else m
  assocSet m' signal_key (x_data, y_data)

/-- DataManager.get_signal_data (data_manager.py lines 59-73): a pure read,
it does not reorder or restamp the entry. -/
def get_signal_data (m : CacheMap) (signal_key : String) :
    Option (List ℚ × List ℚ) :=
  m.lookup signal_key

theorem assocSet_length_le {α β : Type} [DecidableEq α]
    (m : List (α × β)) (k : α) (v : β) :
    (assocSet m k v).length ≤ m.length + 1 := by
  induction m with
  | nil => simp [assocSet]
  | cons hd tl ih =>
      by_cases h : hd.1 = k
      · simp [assocSet, h]
      · simpa [assocSet, h] using Nat.succ_le_succ ih

/-- Modelled from the spec: an LRU cache whose entries carry a last_touched
stamp, where get and put both update last_touched and insertion beyond
capacity evicts the entry with the oldest last_touched. Stated only for
comparison with the source cache above (the source keeps no working
last_touched stamp and evicts in first-insertion order). -/
structure LRUCache where
  entries : List (String × (List ℚ × List ℚ) × Nat)
  clock : Nat
deriving DecidableEq

def lruEmpty : LRUCache := ⟨[], 0⟩

def lruTouchKey (es : List (String × (List ℚ × List ℚ) × Nat))
    (k : String) (t : Nat) : List (String × (List ℚ × List ℚ) × Nat) :=
  es.map (fun e => if e.1 = k then (e.1, e.2.1, t) else e)

def lruMinTouch (es : List (String × (List ℚ × List ℚ) × Nat)) : Nat :=
  ((es.map (fun e => e.2.2)).foldr min (es.headD ("", ([], []), 0)).2.2)

def lruEvictOldest (es : List (String × (List ℚ × List ℚ) × Nat)) :
    List (String × (List ℚ × List ℚ) × Nat) :=
  es.eraseP (fun e => decide (e.2.2 = lruMinTouch es))

/-- Modelled from the spec: get touches the entry it finds. -/
def lruGet (c : LRUCache) (k : String) : LRUCache :=
  if (c.entries.map Prod.fst).contains k then
    ⟨lruTouchKey c.entries k (c.clock + 1), c.clock + 1⟩
  else c

/-- Modelled from the spec: put touches; insertion beyond capacity evicts
the least-recently-touched entry. -/
def lruPut (maxSize : Nat) (c : LRUCache) (k : String)
    (x y : List ℚ) : LRUCache :=
  if (c.entries.map Prod.fst).contains k then
    ⟨(c.entries.map (fun e => if e.1 = k then (k, (x, y), c.clock + 1) else e)),
      c.clock + 1⟩
  else
    let es := if maxSize ≤ c.entries.length then lruEvictOldest c.entries
              else c.entries
    ⟨es ++ [(k, (x, y), c.clock + 1)], c.clock + 1⟩

/-- Raw channel values before np.array conversion: either a numeric value
or something non-numeric (models the isinstance(x, (int, float, np.number))
check in PlotWorker.run). -/
inductive PyVal
  | num (q : ℚ)
  | other
deriving DecidableEq

def PyVal.isNumeric : PyVal → Bool
  | .num _ => true
  | .other => false

def PyVal.toFloat : PyVal → ℚ
  | .num q => q
  | .other => 0

/-- np.arange(n): the 0-based index sequence of length n. -/
def indexSeq (n : Nat) : List ℚ :=
  (List.range n).map Nat.cast

/-- The x/y derivation prefix of PlotWorker.run (workers/plot_worker.py
lines 46-66): error on non-numeric y data; x is the time data when present
and numeric, and the 0-based index sequence of y's length otherwise. -/
def plot_worker_xy (value_data : List PyVal) (time_data : Option (List PyVal)) :
    Except String (List ℚ × List ℚ) :=
  if ¬ value_data.all PyVal.isNumeric then
    .error ("Cannot plot non-numeric data")
  else
    let y_data := value_data.map PyVal.toFloat
    let x_data :=
      match time_data with
      | some td =>
          if ¬ td.all PyVal.isNumeric then indexSeq y_data.length
          else td.map PyVal.toFloat
      | none => indexSeq y_data.length
    .ok (x_data, y_data)

/-- A chunk_ready event as declared by PlotWorkerSignals (plot_worker.py
lines 10-15 and tdms_viewer.py lines 30-33): signal_key, y_data, x_data,
color, is_final. The signature carries no generation id. -/
structure PlotChunkEvent where
  signal_key : String
  y_data : List ℚ
  x_data : List ℚ
  color : String
  is_final : Bool
deriving DecidableEq

/-- The chunk_ready events emitted by one PlotWorker.run (plot_worker.py
lines 44-105): an initial decimated overview when the data exceeds
INITIAL_POINTS, then the raw data in CHUNK_SIZE chunks, the last one
flagged is_final. -/
def plot_worker_chunks (sd : List ℚ → Nat → Option (List ℚ))
    (signal_key color : String) (initial_points chunk_size : Nat)
    (x_data y_data : List ℚ) : List PlotChunkEvent :=
  let total := y_data.length
  let overview : List PlotChunkEvent :=
    if initial_points < total then
      let d := decimate_data sd x_data y_data initial_points
      [⟨signal_key, d.2, d.1, color, false⟩]
    else []
  let p0 := if initial_points < total then initial_points else 0
  let starts := (List.range (((total - p0) + chunk_size - 1) / chunk_size)).map
      (fun i => p0 + i * chunk_size)
  overview ++ starts.map (fun s =>
    let e := min (s + chunk_size) total
    ⟨signal_key, (y_data.drop s).take (e - s), (x_data.drop s).take (e - s),
      color, e == total⟩)

/-- plot_chunk_finished (tdms_viewer.py lines 558-636), restricted to the
plot-data cache it maintains: a chunk for a new key creates that key's plot
with the chunk's data; a chunk for an existing key replaces the plot's data
via setData. No field of the event is compared against any record of which
load request is current. -/
def plot_chunk_finished (current_plots : CacheMap) (ev : PlotChunkEvent) :
    CacheMap :=
  if (current_plots.lookup ev.signal_key).isSome then
    assocSet current_plots ev.signal_key (ev.x_data, ev.y_data)
  else
    current_plots ++ [(ev.signal_key, (ev.x_data, ev.y_data))]

/-- The consumer applying delivered chunk events in order. -/
def apply_plot_events (plots : CacheMap) (evs : List PlotChunkEvent) : CacheMap :=
  evs.foldl plot_chunk_finished plots

/-- A table chunk_ready delivery as wired in TableWidget.start_table_worker
(table_widget.py lines 141-146): start_row, chunk_data, start_col plus the
worker_id the connecting lambda captured for this load generation. -/
structure TableChunkMsg where
  start_row : Nat
  chunk_data : List (List String)
  start_col : Nat
  worker_id : Nat
deriving DecidableEq

/-- TableWidget state relevant to chunk application: the current load
generation (self.worker_id, incremented per rebuild in update_data) and the
cell grid. -/
structure TableState where
  worker_id : Nat
  cells : List ((Nat × Nat) × String)
deriving DecidableEq

/-- TableWidget.on_chunk_ready (table_widget.py lines 155-181): a chunk
whose worker_id differs from the widget's current worker_id is dropped;
otherwise each non-empty value is written at its row/column. -/
def on_chunk_ready (st : TableState) (msg : TableChunkMsg) : TableState :=
  if msg.worker_id ≠ st.worker_id then st
  else
    { st with
      cells := msg.chunk_data.enum.foldl (fun cs rowPair =>
        rowPair.2.enum.foldl (fun cs2 colPair =>
          if colPair.2 ≠ "" then
            assocSet cs2 (msg.start_row + rowPair.1, msg.start_col + colPair.1)
              colPair.2
          else cs2) cs) st.cells }

/-- TableWorker.run's max_rows (table_worker.py line 44): the maximum
x-length over the selected data pairs. -/
def max_rows (pairs : List (List ℚ × List ℚ)) : Nat :=
  (pairs.map (fun p => p.1.length)).foldr max 0

/-- The inner per-row loop of TableWorker.process_chunk (table_worker.py
lines 93-114): for each pair two cells, formatted when the row is within
that signal's length and empty strings otherwise. `fmt` models the
"%.6f"-style float formatting. -/
def row_render (fmt : ℚ → String) (pairs : List (List ℚ × List ℚ))
    (row : Nat) : List String :=
  pairs.foldr (fun p acc =>
    (if row < p.1.length then [fmt (p.1.getD row 0), fmt (p.2.getD row 0)]
     else ["", ""]) ++ acc) []

/-- TableWorker.process_chunk (table_worker.py lines 76-117): the rows from
start_row up to min(start_row + chunk_size, max_rows). -/
def process_chunk (fmt : ℚ → String) (pairs : List (List ℚ × List ℚ))
    (chunk_size start_row : Nat) : List (List String) :=
  let end_row := min (start_row + chunk_size) (max_rows pairs)
  (List.range' start_row (end_row - start_row)).map (row_render fmt pairs)

/-- The while loop of TableWorker.run (table_worker.py lines 52-68), with
fuel bounding the number of iterations: emit process_chunk at current_row
while current_row < max_rows, stepping by chunk_size. -/
def table_worker_loop (fmt : ℚ → String) (pairs : List (List ℚ × List ℚ))
    (chunk_size : Nat) : Nat → Nat → List (List String)
  | 0, _ => []
  | fuel + 1, current_row =>
      if current_row < max_rows pairs then
        process_chunk fmt pairs chunk_size current_row ++
          table_worker_loop fmt pairs chunk_size fuel (current_row + chunk_size)
      else []

/-- All rows emitted by one TableWorker.run: max_rows iterations of fuel
always suffice when chunk_size >= 1. -/
def table_worker_rows (fmt : ℚ → String) (pairs : List (List ℚ × List ℚ))
    (chunk_size : Nat) : List (List String) :=
  table_worker_loop fmt pairs chunk_size (max_rows pairs) 0

/-- A float64 sample as np.isfinite classifies it: finite, NaN or an
infinity. -/
inductive NumVal
  | fin (q : ℚ)
  | nan
  | inf
  | ninf
deriving DecidableEq

/-- y_data[np.isfinite(y_data)] (signal_processor.py line 120). -/
def finiteVals (y_data : List NumVal) : List ℚ :=
  y_data.filterMap (fun v => match v with | .fin q => some q | _ => none)

structure Stats where
  mean : ℚ
  std : ℚ
  min : ℚ
  max : ℚ
  peak_to_peak : ℚ
deriving DecidableEq

def listMin : List ℚ → ℚ
  | [] => 0
  | h :: t => t.foldl min h

def listMax : List ℚ → ℚ
  | [] => 0
  | h :: t => t.foldl max h

/-- SignalProcessor.calculate_statistics (signal_processor.py lines
107-134): statistics over the finite elements only, the all-zero record
when none are finite. `sqrtF` models the square root inside np.std (the
only irrational operation; every other statistic is exact). -/
def calculate_statistics (sqrtF : ℚ → ℚ) (y_data : List NumVal) : Stats :=
  let valid_data := finiteVals y_data
  if valid_data.length = 0 then
    ⟨0, 0, 0, 0, 0⟩
  else
    let n : ℚ := valid_data.length
    let mean := valid_data.sum / n
    let mn := listMin valid_data
    let mx := listMax valid_data
    let variance := (valid_data.map (fun a => (a - mean) ^ 2)).sum / n
    ⟨mean, sqrtF variance, mn, mx, mx - mn⟩

/-- Claim C8: for every x, y and target_points with len(x) <= target_points,
decimate_data returns (x, y) unchanged, for any outcome of the filter. -/
theorem decimate_identity (sd : List ℚ → Nat → Option (List ℚ))
    (x y : List ℚ) (target_points : Nat) (h : x.length ≤ target_points) :
    decimate_data sd x y target_points = (x, y) := by
  simp [decimate_data, h]

theorem decimate_identity_witness :
    ([0, 1] : List ℚ).length ≤ 3 ∧
    decimate_data sdFail [0, 1] [5, 6] 3 = ([0, 1], [5, 6]) :=
  ⟨by decide, decimate_identity sdFail [0, 1] [5, 6] 3 (by decide)⟩

/-- Claim C2, counterexample: for x = y = [0,1,2,3,4] and point budget
n = 3 we have len(x) > n, the decimation factor is 5 / 3 = 1, the filter
step fails on such a short input, and the fallback returns all five points:
the claimed bound len <= n + 1 = 4 is violated. -/
theorem decimate_budget_cex :
    3 < ([0, 1, 2, 3, 4] : List ℚ).length ∧
    ¬ ((decimate_data sdFail [0, 1, 2, 3, 4] [0, 1, 2, 3, 4] 3).1.length ≤ 3 + 1) := by
  constructor
  · decide
  · decide

/-- Claim C2, amended: for every x, y, positive point budget n with
len(x) > n and any filter outcome, the first component of decimate_data has
length at most 2n - 1 (the factor len(x) / n rounds down, so up to 2n - 1
points survive; the claimed n + 1 bound fails, see the counterexample). -/
theorem decimate_budget_bound (sd : List ℚ → Nat → Option (List ℚ))
    (x y : List ℚ) (n : Nat) (hn : 0 < n) (hL : n < x.length) :
    (decimate_data sd x y n).1.length ≤ 2 * n - 1 := by
  have hnot : ¬ x.length ≤ n := by omega
  have hf1 : 1 ≤ x.length / n := (Nat.one_le_div_iff hn).2 (le_of_lt hL)
  have hmax : max 1 (x.length / n) = x.length / n := Nat.max_eq_right hf1
  have hbound := ceil_div_floor_bound x.length n hn hL
  unfold decimate_data
  rw [if_neg hnot]
  simp only [hmax]
  cases hsd : sd y (x.length / n) with
  | some dy =>
      simp only [List.length_take, strideEvery_length]
      omega
  | none =>
      simpa only [strideEvery_length] using hbound

theorem decimate_budget_bound_witness :
    0 < 3 ∧ 3 < ([0, 1, 2, 3, 4] : List ℚ).length ∧
    (decimate_data sdFail [0, 1, 2, 3, 4] [0, 1, 2, 3, 4] 3).1.length ≤ 2 * 3 - 1 :=
  ⟨by decide, by decide,
    decimate_budget_bound sdFail [0, 1, 2, 3, 4] [0, 1, 2, 3, 4] 3
      (by decide) (by decide)⟩

/-- Claim C4: whenever the anti-aliasing filter step cannot be applied
(sd returns none, as scipy.signal.decimate does by raising on e.g. inputs
shorter than the filter pad length), decimate_data returns the plain
strided downsampling of both arrays; no input reaches any other outcome. -/
theorem decimate_fallback (sd : List ℚ → Nat → Option (List ℚ))
    (x y : List ℚ) (n : Nat) (hL : n < x.length)
    (hsd : sd y (max 1 (x.length / n)) = none) :
    decimate_data sd x y n =
      (strideEvery x (max 1 (x.length / n)),
       strideEvery y (max 1 (x.length / n))) := by
  have hnot : ¬ x.length ≤ n := by omega
  simp [decimate_data, hnot, hsd]

theorem decimate_fallback_witness :
    3 < ([0, 1, 2, 3, 4] : List ℚ).length ∧
    sdFail [5, 6, 7, 8, 9] (max 1 (([0, 1, 2, 3, 4] : List ℚ).length / 3)) = none ∧
    decimate_data sdFail [0, 1, 2, 3, 4] [5, 6, 7, 8, 9] 3 =
      (strideEvery [0, 1, 2, 3, 4] (max 1 (([0, 1, 2, 3, 4] : List ℚ).length / 3)),
       strideEvery [5, 6, 7, 8, 9] (max 1 (([0, 1, 2, 3, 4] : List ℚ).length / 3))) :=
  ⟨by decide, rfl,
    decimate_fallback sdFail [0, 1, 2, 3, 4] [5, 6, 7, 8, 9] 3 (by decide) rfl⟩

/-- Claim C5, counterexample: for the in-range query x = 1/4 on the signal
with samples (0,0),(1,10), the code returns y[0] = 0 (the nearest index is
0, so no interpolation happens), while the linear interpolant between the
two bracketing samples is 5/2. -/
theorem y_at_x_not_bracketing_cex :
    get_y_at_x (1/4) [0, 1] [0, 10] = some 0 ∧
    bracketInterp 0 1 0 10 (1/4) = 5/2 ∧
    (0 : ℚ) ≠ 5/2 := by
  refine ⟨by with_unfolding_all decide, by with_unfolding_all decide,
    by with_unfolding_all decide⟩

/-- Claim C5, amended: get_y_at_x returns none whenever the signal has no
data or x lies outside [x[0], x[-1]]; within range it interpolates on the
segment ending at the nearest index (which need not bracket x, and when
the nearest index is 0 it returns y[0] without interpolating); at the
spec's concrete points it gives y_at_x 0.5 = 5, y_at_x (-1) = none and
y_at_x 2 = none for the samples (0,0),(1,10). -/
theorem y_at_x_amended :
    (∀ (xv : ℚ) (xs ys : List ℚ),
        (xs = [] ∨ xv < xs.getD 0 0 ∨ xs.getD (xs.length - 1) 0 < xv) →
        get_y_at_x xv xs ys = none) ∧
    get_y_at_x (1/2) [0, 1] [0, 10] = some 5 ∧
    get_y_at_x (-1) [0, 1] [0, 10] = none ∧
    get_y_at_x 2 [0, 1] [0, 10] = none := by
  refine ⟨?_, by with_unfolding_all decide, by with_unfolding_all decide,
    by with_unfolding_all decide⟩
  intro xv xs ys h
  have hcond : xs.length = 0 ∨ xv < xs.getD 0 0 ∨ xs.getD (xs.length - 1) 0 < xv := by
    rcases h with h | h | h
    · exact Or.inl (by simp [h])
    · exact Or.inr (Or.inl h)
    · exact Or.inr (Or.inr h)
  unfold get_y_at_x
  rw [if_pos hcond]

theorem y_at_x_amended_witness :
    (([] : List ℚ) = [] ∨ (7 : ℚ) < ([] : List ℚ).getD 0 0 ∨
      ([] : List ℚ).getD (([] : List ℚ).length - 1) 0 < 7) ∧
    get_y_at_x 7 [] [] = none :=
  ⟨Or.inl rfl, y_at_x_amended.1 7 [] [] (Or.inl rfl)⟩

/-- The x array 0, 1, ..., 99 of the spec's viewport test. -/
def xs100 : List ℚ := (List.range 100).map Nat.cast

/-- Claim C6, counterexample: for x = y = [0..99], the slice for the view
range (20, 40) is the half-open [20..39] (20 points); it is not the
inclusive [20..40] (21 points) the claim states. -/
theorem visible_slice_endpoint_cex :
    (get_visible_data sdFail xs100 xs100 20 40 1000).1 =
      (List.range' 20 20).map Nat.cast ∧
    (get_visible_data sdFail xs100 xs100 20 40 1000).1 ≠
      (List.range' 20 21).map Nat.cast := by
  refine ⟨by with_unfolding_all decide, by with_unfolding_all decide⟩

/-- Claim C6, amended: whenever the resolved start index is at least the
resolved end index, get_visible_data returns empty sequences; for
x = y = [0..99] the view range (20, 40) yields the half-open slice
[20..39] for both components, untouched by decimation, and the view range
(200, 300) yields empty sequences. -/
theorem visible_slice_amended :
    (∀ (sd : List ℚ → Nat → Option (List ℚ)) (x y : List ℚ) (a b : ℚ) (t : Nat),
        find_nearest_index x b ≤ find_nearest_index x a →
        get_visible_data sd x y a b t = ([], [])) ∧
    get_visible_data sdFail xs100 xs100 20 40 1000 =
      ((List.range' 20 20).map Nat.cast,
       (List.range' 20 20).map Nat.cast) ∧
    get_visible_data sdFail xs100 xs100 200 300 1000 = ([], []) := by
  refine ⟨?_, by with_unfolding_all decide, by with_unfolding_all decide⟩
  intro sd x y a b t h
  unfold get_visible_data
  rw [if_pos h]

theorem visible_slice_amended_witness :
    find_nearest_index [(0 : ℚ)] 3 ≤ find_nearest_index [(0 : ℚ)] 5 ∧
    get_visible_data sdFail [0] [0] 5 3 7 = ([], []) :=
  ⟨by with_unfolding_all decide,
    visible_slice_amended.1 sdFail [0] [0] 5 3 7 (by with_unfolding_all decide)⟩

/-- The cache after inserting signals A then B at capacity 2. -/
def cacheAB : CacheMap :=
  cache_signal 2 (cache_signal 2 [] "A" [] [1]) "B" [] [2]

/-- The cache after then reading A (a pure read in the source, so no state
change) and inserting C. -/
def cacheABC : CacheMap :=
  cache_signal 2 cacheAB "C" [] [3]

/-- The same operation sequence against the LRU cache the spec describes:
put A, put B, get A (touching A), put C. -/
def lruABC : LRUCache :=
  lruPut 2 (lruGet (lruPut 2 (lruPut 2 lruEmpty "A" [] [1]) "B" [] [2]) "A") "C" [] [3]

/-- Claim C3, counterexample: at capacity 2, after put A, put B, get A,
put C, the code evicts A (the oldest-inserted entry, untouched by the get)
and keeps B, while the least-recently-touched entry per the spec's
last_touched discipline is B: the spec cache keeps A and evicts B. -/
theorem cache_eviction_not_lru_cex :
    get_signal_data cacheAB "A" = some ([], [1]) ∧
    get_signal_data cacheABC "A" = none ∧
    get_signal_data cacheABC "B" = some ([], [2]) ∧
    cacheABC.map Prod.fst = ["B", "C"] ∧
    lruABC.entries.map Prod.fst = ["A", "C"] := by
  refine ⟨by with_unfolding_all decide, by with_unfolding_all decide,
    by with_unfolding_all decide, by with_unfolding_all decide,
    by with_unfolding_all decide⟩

/-- Claim C3, amended: the signal cache never exceeds its capacity N, and
inserting when the cache is full evicts exactly one entry, namely the
oldest-inserted (head) one: eviction order is first-insertion (FIFO), not
least-recently-touched, and get_signal_data is a pure read that refreshes
nothing. -/
theorem cache_capacity_fifo (N : Nat) (m : CacheMap) (k : String)
    (x y : List ℚ) (hN : 1 ≤ N) (hm : m.length ≤ N) :
    (cache_signal N m k x y).length ≤ N ∧
    (m.length = N → cache_signal N m k x y = assocSet (m.drop 1) k (x, y)) := by
  constructor
  · simp only [cache_signal]
    by_cases h : N ≤ m.length
    · rw [if_pos h]
      have h1 := assocSet_length_le (m.drop 1) k (x, y)
      have h2 : (m.drop 1).length = m.length - 1 := by simp
      omega
    · rw [if_neg h]
      have h1 := assocSet_length_le m k (x, y)
      omega
  · intro hfull
    simp only [cache_signal]
    rw [if_pos (by omega)]

theorem cache_capacity_fifo_witness :
    1 ≤ 1 ∧ ([("A", ([], []))] : CacheMap).length ≤ 1 ∧
    ((cache_signal 1 [("A", ([], []))] "B" [] []).length ≤ 1 ∧
      (([("A", ([], []))] : CacheMap).length = 1 →
        cache_signal 1 [("A", ([], []))] "B" [] [] =
          assocSet (([("A", ([], []))] : CacheMap).drop 1) "B" ([], []))) :=
  ⟨by decide, by decide,
    cache_capacity_fifo 1 [("A", ([], []))] "B" [] [] (by decide) (by decide)⟩

/-- The chunk events of an older load request (generation 1) for channel
"g/ch", carrying the data [5]. -/
def staleEvsGen1 : List PlotChunkEvent :=
  plot_worker_chunks sdFail "g/ch" "blue" 1000000 100000 [0] [5]

/-- The chunk events of a newer load request (generation 2) for the same
channel, carrying the data [9]. -/
def staleEvsGen2 : List PlotChunkEvent :=
  plot_worker_chunks sdFail "g/ch" "red" 1000000 100000 [0] [9]

/-- Claim C1, counterexample: chunk events of the plot pipeline carry only
(signal_key, y_data, x_data, color, is_final) — no generation id — and the
consumer applies every delivered chunk. With two overlapping load requests
for channel "g/ch" (generation 1 with data [5], generation 2 with data
[9]), generation 2 completes first (its final chunk is delivered), yet the
late generation-1 chunk is still applied and overwrites the cache: the
plot cache ends at generation 1's data, not generation 2's. -/
theorem plot_stale_chunk_applied_cex :
    (∀ ev ∈ staleEvsGen2, ev.is_final = true) ∧
    (apply_plot_events [] (staleEvsGen2 ++ staleEvsGen1)).lookup "g/ch" =
      some ([0], [5]) ∧
    some (([0], [5]) : List ℚ × List ℚ) ≠ some ([0], [9]) := by
  refine ⟨by with_unfolding_all decide, by with_unfolding_all decide,
    by with_unfolding_all decide⟩

/-- Claim C1, amended: only the table path fences staleness. Table chunk
deliveries carry the worker_id of the load that produced them, and
on_chunk_ready drops any chunk whose worker_id differs from the widget's
current one: for overlapping table loads with ids g1 < g2, while g2 is
current no g1-tagged chunk is ever applied. Plot chunk events carry no
generation id and are applied unconditionally (see the counterexample). -/
theorem table_stale_chunk_dropped (g1 g2 : Nat) (st : TableState)
    (msg : TableChunkMsg) (h12 : g1 < g2) (hcur : st.worker_id = g2)
    (hmsg : msg.worker_id = g1) :
    on_chunk_ready st msg = st := by
  unfold on_chunk_ready
  rw [if_pos (by omega)]

theorem table_stale_chunk_dropped_witness :
    1 < 2 ∧
    on_chunk_ready ⟨2, []⟩ ⟨0, [["1.000000"]], 0, 1⟩ = ⟨2, []⟩ :=
  ⟨by decide,
    table_stale_chunk_dropped 1 2 ⟨2, []⟩ ⟨0, [["1.000000"]], 0, 1⟩
      (by decide) rfl rfl⟩

/-- Claim C7: when no companion time channel is found (time_data is None),
PlotWorker.run synthesizes x as the 0-based index sequence of the same
length as y instead of failing, so x and y lengths agree. -/
theorem plot_worker_synth_x (value_data : List PyVal)
    (h : value_data.all PyVal.isNumeric) :
    plot_worker_xy value_data none =
      .ok (indexSeq (value_data.map PyVal.toFloat).length,
           value_data.map PyVal.toFloat) ∧
    (indexSeq (value_data.map PyVal.toFloat).length).length =
      (value_data.map PyVal.toFloat).length := by
  constructor
  · simp [plot_worker_xy, h]
  · rw [indexSeq, List.length_map, List.length_range]

theorem plot_worker_synth_x_witness :
    ([PyVal.num 3, PyVal.num 4].all PyVal.isNumeric) = true ∧
    (plot_worker_xy [PyVal.num 3, PyVal.num 4] none =
      .ok (indexSeq ([PyVal.num 3, PyVal.num 4].map PyVal.toFloat).length,
           [PyVal.num 3, PyVal.num 4].map PyVal.toFloat) ∧
     (indexSeq ([PyVal.num 3, PyVal.num 4].map PyVal.toFloat).length).length =
       ([PyVal.num 3, PyVal.num 4].map PyVal.toFloat).length) :=
  ⟨by decide, plot_worker_synth_x [PyVal.num 3, PyVal.num 4] (by decide)⟩

theorem range'_append_my (s m n : Nat) :
    List.range' s m ++ List.range' (s + m) n = List.range' s (m + n) := by
  have h := List.range'_append s m n 1
  rw [one_mul] at h
  rw [h, Nat.add_comm]

/-- The while loop of TableWorker.run covers exactly the rows from
current_row up to max_rows, provided the fuel covers the remaining
iterations. -/
theorem table_worker_loop_eq (fmt : ℚ → String) (pairs : List (List ℚ × List ℚ))
    (cs : Nat) (hcs : 1 ≤ cs) :
    ∀ (fuel current : Nat), max_rows pairs - current ≤ fuel * cs →
      table_worker_loop fmt pairs cs fuel current =
        (List.range' current (max_rows pairs - current)).map (row_render fmt pairs) := by
  intro fuel
  induction fuel with
  | zero =>
      intro current h
      have h0 : max_rows pairs - current = 0 := by omega
      rw [h0]
      simp [table_worker_loop]
  | succ f ih =>
      intro current h
      by_cases hlt : current < max_rows pairs
      · rw [table_worker_loop, if_pos hlt, ih (current + cs) (by
          have : (f + 1) * cs = f * cs + cs := by ring
          omega)]
        simp only [process_chunk]
        by_cases hcap : current + cs ≤ max_rows pairs
        · have h1 : min (current + cs) (max_rows pairs) - current = cs := by omega
          have h3 : max_rows pairs - (current + cs) = max_rows pairs - current - cs := by
            omega
          rw [h1, h3, ← List.map_append,
            range'_append_my current cs (max_rows pairs - current - cs)]
          have h4 : cs + (max_rows pairs - current - cs) = max_rows pairs - current := by
            omega
          rw [h4]
        · have h1 : min (current + cs) (max_rows pairs) - current =
              max_rows pairs - current := by omega
          have h3 : max_rows pairs - (current + cs) = 0 := by omega
          rw [h1, h3]
          simp
      · rw [table_worker_loop, if_neg hlt]
        have h0 : max_rows pairs - current = 0 := by omega
        rw [h0]
        simp

/-- Claim C9: one TableWorker.run emits exactly max_rows rows, the maximum
of the selected signals' lengths, each row rendered by the per-row loop;
beyond a signal's length its two cells are empty strings, within it they
are real formatted values — in particular, with signals of lengths 5 and
10, row 7 renders two empty cells then the formatted values of the longer
signal at index 7. -/
theorem table_rows_padding (fmt : ℚ → String) (pairs : List (List ℚ × List ℚ))
    (chunk_size : Nat) (hcs : 1 ≤ chunk_size) (_hp : pairs ≠ []) :
    table_worker_rows fmt pairs chunk_size =
      (List.range (max_rows pairs)).map (row_render fmt pairs) ∧
    (table_worker_rows fmt pairs chunk_size).length = max_rows pairs ∧
    row_render fmt
      [([10, 11, 12, 13, 14], [20, 21, 22, 23, 24]),
       ([0, 1, 2, 3, 4, 5, 6, 7, 8, 9], [30, 31, 32, 33, 34, 35, 36, 37, 38, 39])] 7 =
      ["", "", fmt 7, fmt 37] := by
  have hmain : table_worker_rows fmt pairs chunk_size =
      (List.range (max_rows pairs)).map (row_render fmt pairs) := by
    rw [table_worker_rows]
    have hm1 : max_rows pairs * 1 ≤ max_rows pairs * chunk_size :=
      Nat.mul_le_mul_left _ hcs
    rw [table_worker_loop_eq fmt pairs chunk_size hcs (max_rows pairs) 0 (by omega)]
    rw [Nat.sub_zero, List.range_eq_range']
  refine ⟨hmain, ?_, ?_⟩
  · rw [hmain]
    simp
  · rfl

theorem table_rows_padding_witness :
    1 ≤ 1 ∧ ([(([0] : List ℚ), ([0] : List ℚ))] ≠ ([] : List (List ℚ × List ℚ))) ∧
    (table_worker_rows (fun _ => "v") [([0], [0])] 1 =
        (List.range (max_rows [([0], [0])])).map
          (row_render (fun _ => "v") [([0], [0])]) ∧
      (table_worker_rows (fun _ => "v") [([0], [0])] 1).length =
        max_rows [([0], [0])] ∧
      row_render (fun _ => "v")
        [([10, 11, 12, 13, 14], [20, 21, 22, 23, 24]),
         ([0, 1, 2, 3, 4, 5, 6, 7, 8, 9], [30, 31, 32, 33, 34, 35, 36, 37, 38, 39])] 7 =
        ["", "", (fun (_ : ℚ) => "v") 7, (fun (_ : ℚ) => "v") 37]) :=
  ⟨by decide, by decide,
    table_rows_padding (fun _ => "v") [([0], [0])] 1 (by decide) (by decide)⟩

theorem finiteVals_map_fin (l : List ℚ) : finiteVals (l.map NumVal.fin) = l := by
  induction l with
  | nil => rfl
  | cons q t ih => simp [finiteVals, List.filterMap_cons] at ih ⊢; exact ih

/-- Claim C10: when y contains no finite value the statistics are the
all-zero record; in general the statistics depend only on the finite
elements of y; concretely, NaN elements are excluded: the statistics of
[1, NaN, 3] are mean 2, std sqrt(1), min 1, max 3, peak-to-peak 2. -/
theorem statistics_finite_only (sqrtF : ℚ → ℚ) (y_data : List NumVal) :
    (finiteVals y_data = [] → calculate_statistics sqrtF y_data = ⟨0, 0, 0, 0, 0⟩) ∧
    calculate_statistics sqrtF y_data =
      calculate_statistics sqrtF ((finiteVals y_data).map NumVal.fin) ∧
    calculate_statistics sqrtF [NumVal.fin 1, NumVal.nan, NumVal.fin 3] =
      ⟨2, sqrtF 1, 1, 3, 2⟩ := by
  refine ⟨?_, ?_, ?_⟩
  · intro h
    simp [calculate_statistics, h]
  · rw [calculate_statistics, calculate_statistics, finiteVals_map_fin]
  · have hv : finiteVals [NumVal.fin 1, NumVal.nan, NumVal.fin 3] = [1, 3] := rfl
    rw [calculate_statistics, hv]
    norm_num [listMin, listMax]

theorem statistics_finite_only_witness :
    finiteVals [NumVal.nan, NumVal.inf] = [] ∧
    calculate_statistics (fun q => q) [NumVal.nan, NumVal.inf] = ⟨0, 0, 0, 0, 0⟩ :=
  ⟨rfl, (statistics_finite_only (fun q => q) [NumVal.nan, NumVal.inf]).1 rfl⟩
